import Mathlib

/-!
Shallow embedding of `src/hashing_app/hashing_algorithms.py`: the four
hash-table strategies (`ChainingHashTable`, `LinearProbingHashTable`,
`QuadraticProbingHashTable`, `DoubleHashingHashTable`) over the database
rows of `src/hashing_app/models.py` (`HashTableSlot`, `ChainedElement`).

Modelling conventions:
- database state becomes explicit Lean state: the `HashTableSlot` rows of a
  probing table are a `List Slot` ordered by `slot_index`; the rows of the
  chaining table are a `List` of ordered chains of `(key_value, actual_value)`
  pairs;
- Python `hash` is an arbitrary function `String → Int`, passed explicitly
  (Python only guarantees determinism within a run); Python `%` on a positive
  modulus agrees with `Int.emod`;
- a Python method that mutates `self` and either returns or raises becomes a
  function returning the post-state paired with an `OpResult`:
  `ZeroDivisionError` (from `%` with modulus 0) and the generic
  `Exception("Tabla hash llena...")` are the two exception kinds reachable in
  `insert`/`search`.
-/

namespace HashingApp

/-- Exception kinds reachable from the table operations: `ZeroDivisionError`
raised by Python `%` with a zero modulus, and the generic `Exception` with
message "Tabla hash llena. No se pudo insertar el elemento." raised by the
open-addressing inserts. -/
inductive HashErr where
  | zeroDivision : HashErr
  | tableFull : HashErr

deriving instance DecidableEq, Repr for HashErr

/-- Outcome of one operation: a normal return value, or a raised exception. -/
inductive OpResult (α : Type) where
  | ok : α → OpResult α
  | exn : HashErr → OpResult α

deriving instance DecidableEq for OpResult

/-- One `HashTableSlot` row used by the probing strategies: `key_value` and
`actual_value` are nullable fields. -/
structure Slot where
  keyValue : Option String
  actualValue : Option String

deriving instance DecidableEq for Slot

/-- Freshly created slot row (`key_value = None`, `actual_value = None`). -/
def emptySlot : Slot := ⟨none, none⟩

/-- In-memory state of an open-addressing table: the `size`,
`collisions_count` and `probes_count` attributes of `HashTable`, and its
`HashTableSlot` rows ordered by `slot_index`. -/
structure ProbeTable where
  size : Nat
  slots : List Slot
  collisionsCount : Nat
  probesCount : Nat

deriving instance DecidableEq for ProbeTable

/-- In-memory state of the chaining table: each slot's `ChainedElement` rows
as an ordered chain of `(key_value, actual_value)` pairs. -/
structure ChainTable where
  size : Nat
  chains : List (List (String × String))
  collisionsCount : Nat
  probesCount : Nat

deriving instance DecidableEq for ChainTable

/-- Invariant established by `_initialize_table_slots`: one slot row per
index in `range(size)`. -/
def ProbeTable.WF (t : ProbeTable) : Prop := t.slots.length = t.size

/-- Invariant established by `_initialize_table_slots` for chaining. -/
def ChainTable.WF (t : ChainTable) : Prop := t.chains.length = t.size

/-- Method `reset_stats` of `HashTable`. -/
def ProbeTable.resetStats (t : ProbeTable) : ProbeTable :=
  { t with collisionsCount := 0, probesCount := 0 }

/-- Method `reset_stats` of `HashTable`, chaining variant of the state. -/
def ChainTable.resetStats (t : ChainTable) : ChainTable :=
  { t with collisionsCount := 0, probesCount := 0 }

/-- Primary hash `_hash_function` (identical in all four classes):
`hash(key) % self.size`. Python raises `ZeroDivisionError` when `size = 0`;
for a positive modulus Python `%` agrees with `Int.emod`, landing in
`[0, size)`. -/
def hashMod (hash : String → Int) (size : Nat) (key : String) : OpResult Nat :=
  if size = 0 then .exn .zeroDivision
  else .ok ((hash key % (size : Int)).toNat)

/-- Secondary hash `_hash_function2` of `DoubleHashingHashTable`:
`hash(key) % (self.size - 1) + 1`, raising `ZeroDivisionError` when
`size - 1 = 0` (the subtraction is over Python integers, hence `Int`). -/
def hashMod2 (hash : String → Int) (size : Nat) (key : String) : OpResult Nat :=
  if (size : Int) - 1 = 0 then .exn .zeroDivision
  else .ok ((hash key % ((size : Int) - 1)).toNat + 1)

/-- Loop body shared by the three open-addressing `insert` methods
(`for i in range(self.size)`), with the candidate index
`(home + delta i) % size`: `delta i = i` for linear probing, `i * i` for
quadratic probing, and `i * h2` for double hashing. An empty slot receives
the new pair; a slot holding the same key has its value overwritten; an
occupied slot with a different key counts one collision and one extra probe;
running out of iterations raises the table-full exception. -/
def probeInsertGo (delta : Nat → Nat) (key value : String) (home : Nat)
    (t : ProbeTable) (i fuel : Nat) : ProbeTable × OpResult Unit :=
  match fuel with
  | 0 => (t, .exn .tableFull)
  | fuel + 1 =>
    match (t.slots.getD ((home + delta i) % t.size) emptySlot).keyValue with
    | none =>
      ({ t with slots := t.slots.set ((home + delta i) % t.size)
                  ⟨some key, some value⟩ }, .ok ())
    | some k =>
      if k = key then
        ({ t with slots := t.slots.set ((home + delta i) % t.size)
                    ⟨some k, some value⟩ }, .ok ())
      else
        probeInsertGo delta key value home
          { t with collisionsCount := t.collisionsCount + 1,
                   probesCount := t.probesCount + 1 } (i + 1) fuel

/-- Loop body shared by the three open-addressing `search` methods: an empty
slot means the key is absent; a matching key returns its stored value; a
different key costs one extra probe; exhausting the loop returns `None`. -/
def probeSearchGo (delta : Nat → Nat) (key : String) (home : Nat)
    (t : ProbeTable) (i fuel : Nat) : ProbeTable × OpResult (Option String) :=
  match fuel with
  | 0 => (t, .ok none)
  | fuel + 1 =>
    match (t.slots.getD ((home + delta i) % t.size) emptySlot).keyValue with
    | none => (t, .ok none)
    | some k =>
      if k = key then
        (t, .ok (t.slots.getD ((home + delta i) % t.size) emptySlot).actualValue)
      else
        probeSearchGo delta key home
          { t with probesCount := t.probesCount + 1 } (i + 1) fuel

/-- Method `insert` of `LinearProbingHashTable`: reset stats, primary hash,
one probe, then the loop with offset `i`. -/
def linearInsert (hash : String → Int) (t : ProbeTable) (key value : String) :
    ProbeTable × OpResult Unit :=
  let t := t.resetStats
  match hashMod hash t.size key with
  | .exn e => (t, .exn e)
  | .ok home =>
    let t := { t with probesCount := t.probesCount + 1 }
    probeInsertGo (fun i => i) key value home t 0 t.size

/-- Method `search` of `LinearProbingHashTable`. -/
def linearSearch (hash : String → Int) (t : ProbeTable) (key : String) :
    ProbeTable × OpResult (Option String) :=
  let t := t.resetStats
  match hashMod hash t.size key with
  | .exn e => (t, .exn e)
  | .ok home =>
    let t := { t with probesCount := t.probesCount + 1 }
    probeSearchGo (fun i => i) key home t 0 t.size

/-- Method `insert` of `QuadraticProbingHashTable`: offset `i * i`. -/
def quadraticInsert (hash : String → Int) (t : ProbeTable) (key value : String) :
    ProbeTable × OpResult Unit :=
  let t := t.resetStats
  match hashMod hash t.size key with
  | .exn e => (t, .exn e)
  | .ok home =>
    let t := { t with probesCount := t.probesCount + 1 }
    probeInsertGo (fun i => i * i) key value home t 0 t.size

/-- Method `search` of `QuadraticProbingHashTable`. -/
def quadraticSearch (hash : String → Int) (t : ProbeTable) (key : String) :
    ProbeTable × OpResult (Option String) :=
  let t := t.resetStats
  match hashMod hash t.size key with
  | .exn e => (t, .exn e)
  | .ok home =>
    let t := { t with probesCount := t.probesCount + 1 }
    probeSearchGo (fun i => i * i) key home t 0 t.size

/-- Method `insert` of `DoubleHashingHashTable`: both hashes are computed
before the probe count is incremented, so a `ZeroDivisionError` from
`_hash_function2` leaves the freshly reset statistics at `(0, 0)`. -/
def doubleInsert (hash : String → Int) (t : ProbeTable) (key value : String) :
    ProbeTable × OpResult Unit :=
  let t := t.resetStats
  match hashMod hash t.size key with
  | .exn e => (t, .exn e)
  | .ok h1 =>
    match hashMod2 hash t.size key with
    | .exn e => (t, .exn e)
    | .ok h2 =>
      let t := { t with probesCount := t.probesCount + 1 }
      probeInsertGo (fun i => i * h2) key value h1 t 0 t.size

/-- Method `search` of `DoubleHashingHashTable`. -/
def doubleSearch (hash : String → Int) (t : ProbeTable) (key : String) :
    ProbeTable × OpResult (Option String) :=
  let t := t.resetStats
  match hashMod hash t.size key with
  | .exn e => (t, .exn e)
  | .ok h1 =>
    match hashMod2 hash t.size key with
    | .exn e => (t, .exn e)
    | .ok h2 =>
      let t := { t with probesCount := t.probesCount + 1 }
      probeSearchGo (fun i => i * h2) key h1 t 0 t.size

/-- Update step of chaining `insert`: `ChainedElement.objects.get(slot, key)`
followed by a save overwrites the value of the entry holding `key`, in place;
`none` models the `DoesNotExist` branch where no entry holds `key`. -/
def updateChain (key value : String) :
    List (String × String) → Option (List (String × String))
  | [] => none
  | (k, w) :: rest =>
    if k = key then some ((k, value) :: rest)
    else (updateChain key value rest).map (fun r => (k, w) :: r)

/-- Method `insert` of `ChainingHashTable`: reset stats, primary hash, one
probe; one collision when the bucket already holds at least one element;
then update-in-place or append of the `(key, value)` entry. -/
def chainInsert (hash : String → Int) (t : ChainTable) (key value : String) :
    ChainTable × OpResult Unit :=
  let t := t.resetStats
  match hashMod hash t.size key with
  | .exn e => (t, .exn e)
  | .ok index =>
    let t := { t with probesCount := t.probesCount + 1 }
    let chain := t.chains.getD index []
    let t := if chain.isEmpty then t
             else { t with collisionsCount := t.collisionsCount + 1 }
    match updateChain key value chain with
    | some newChain => ({ t with chains := t.chains.set index newChain }, .ok ())
    | none =>
      ({ t with chains := t.chains.set index (chain ++ [(key, value)]) }, .ok ())

/-- Scan of chaining `search` over one bucket: each examined element costs
one probe (counted before the comparison); the first match returns its
value. -/
def chainSearchGo (key : String) (t : ChainTable) :
    List (String × String) → ChainTable × OpResult (Option String)
  | [] => (t, .ok none)
  | (k, w) :: rest =>
    let t := { t with probesCount := t.probesCount + 1 }
    if k = key then (t, .ok (some w))
    else chainSearchGo key t rest

/-- Method `search` of `ChainingHashTable`. -/
def chainSearch (hash : String → Int) (t : ChainTable) (key : String) :
    ChainTable × OpResult (Option String) :=
  let t := t.resetStats
  match hashMod hash t.size key with
  | .exn e => (t, .exn e)
  | .ok index =>
    let t := { t with probesCount := t.probesCount + 1 }
    chainSearchGo key t (t.chains.getD index [])

/-- One entry of the `get_state` snapshot for a probing table: the Python
expression is a dict when `slot.key_value` is truthy and `None` otherwise,
so both a null key and an empty-string key are reported as `None`. -/
def slotState (s : Slot) : Option (String × Option String) :=
  match s.keyValue with
  | none => none
  | some k => if k = "" then none else some (k, s.actualValue)

/-- Snapshot returned by `get_state` for a probing table. -/
structure ProbeState where
  size : Nat
  table : List (Option (String × Option String))
  collisionsCount : Nat
  probesCount : Nat
  algorithm : String

deriving instance DecidableEq for ProbeState

/-- Method `get_state` of `HashTable` on a probing strategy: the slot rows
ordered by `slot_index`, each rendered by `slotState`. -/
def ProbeTable.getState (t : ProbeTable) (alg : String) : ProbeState :=
  ⟨t.size, t.slots.map slotState, t.collisionsCount, t.probesCount, alg⟩

/-- Constructor `HashTable.__init__` together with `_initialize_table_slots`:
stores the size and statistics and creates one empty slot row per index of
`range(size)`; `range` over a nonpositive bound is empty, and no size
validation of any kind is performed (the constructor has no failure path).
The model stores the slot count as `Int.toNat size`, which is exactly the
number of rows `range(size)` creates. -/
def initSlots (size : Int) : List Slot := List.replicate size.toNat emptySlot

/-- Construction of a probing table of any of the three strategies. -/
def mkProbeTable (size : Int) : ProbeTable :=
  { size := size.toNat, slots := initSlots size,
    collisionsCount := 0, probesCount := 0 }

/-- Construction of the chaining table: slot rows exist but no
`ChainedElement` rows, so every chain starts empty. -/
def mkChainTable (size : Int) : ChainTable :=
  { size := size.toNat, chains := List.replicate size.toNat [],
    collisionsCount := 0, probesCount := 0 }

/-- Number of slots the inserts treat as occupied: the occupancy test of
every probing strategy is `slot.key_value is None`. -/
def occupiedCount (t : ProbeTable) : Nat :=
  t.slots.countP (fun s => s.keyValue.isSome)

/-- Test of the collision branch of the open-addressing loops: the slot
holds some key different from the one being processed. -/
def isOccupiedByOther (s : Slot) (key : String) : Bool :=
  match s.keyValue with
  | none => false
  | some k => decide (k ≠ key)

/-! Helper lemmas about the shared open-addressing loops. -/

theorem getD_set_of_ne {α : Type} {l : List α} {m n : Nat} (a : α) {d : α}
    (h : m ≠ n) : (l.set m a).getD n d = l.getD n d := by
  simp [List.getD_eq_getElem?_getD, List.getElem?_set_ne h]

theorem getD_set_self_of_lt {α : Type} {l : List α} {n : Nat} (a : α) {d : α}
    (h : n < l.length) : (l.set n a).getD n d = a := by
  simp [List.getD_eq_getElem?_getD, List.getElem?_set_self',
    List.getElem?_eq_getElem h]

theorem hashMod_ok_pos {hash : String → Int} {size : Nat} {key : String}
    {n : Nat} (h : hashMod hash size key = .ok n) : 0 < size := by
  by_cases hs : size = 0
  · rw [hashMod, if_pos hs] at h
    exact OpResult.noConfusion h
  · exact Nat.pos_of_ne_zero hs

theorem hashMod_ok_lt {hash : String → Int} {size : Nat} {key : String}
    {n : Nat} (h : hashMod hash size key = .ok n) : n < size := by
  by_cases hs : size = 0
  · rw [hashMod, if_pos hs] at h
    exact OpResult.noConfusion h
  · rw [hashMod, if_neg hs] at h
    injection h with h
    have hpos : (0 : Int) < (size : Int) := by
      exact_mod_cast Nat.pos_of_ne_zero hs
    have hlt := Int.emod_lt_of_pos (hash key) hpos
    have h0 := Int.emod_nonneg (hash key) (Int.ne_of_gt hpos)
    omega

theorem hashMod_exn_eq {hash : String → Int} {size : Nat} {key : String}
    {e : HashErr} (h : hashMod hash size key = .exn e) : e = .zeroDivision := by
  by_cases hs : size = 0
  · rw [hashMod, if_pos hs] at h
    injection h with h
    exact h.symm
  · rw [hashMod, if_neg hs] at h
    exact OpResult.noConfusion h

theorem isOccupiedByOther_iff (s : Slot) (key : String) :
    isOccupiedByOther s key = true ↔ ∃ k, s.keyValue = some k ∧ k ≠ key := by
  unfold isOccupiedByOther
  cases s.keyValue with
  | none => simp
  | some k => simp

theorem probeInsertGo_size (delta : Nat → Nat) (key value : String) (home : Nat)
    (t : ProbeTable) (i fuel : Nat) :
    (probeInsertGo delta key value home t i fuel).1.size = t.size := by
  induction fuel generalizing t i with
  | zero => rfl
  | succ fuel ih =>
    rw [probeInsertGo]
    split
    · rfl
    · split
      · rfl
      · exact ih _ _

theorem probeInsertGo_slots_length (delta : Nat → Nat) (key value : String)
    (home : Nat) (t : ProbeTable) (i fuel : Nat) :
    (probeInsertGo delta key value home t i fuel).1.slots.length = t.slots.length := by
  induction fuel generalizing t i with
  | zero => rfl
  | succ fuel ih =>
    rw [probeInsertGo]
    split
    · simp
    · split
      · simp
      · exact ih _ _

theorem probeInsertGo_collisions_le (delta : Nat → Nat) (key value : String)
    (home : Nat) (t : ProbeTable) (i fuel : Nat) :
    t.collisionsCount ≤ (probeInsertGo delta key value home t i fuel).1.collisionsCount := by
  induction fuel generalizing t i with
  | zero => exact Nat.le_refl _
  | succ fuel ih =>
    rw [probeInsertGo]
    split
    · exact Nat.le_refl _
    · split
      · exact Nat.le_refl _
      · exact Nat.le_trans (Nat.le_succ _)
          (ih { t with collisionsCount := t.collisionsCount + 1,
                       probesCount := t.probesCount + 1 } (i + 1))

theorem probeInsertGo_exn_slots (delta : Nat → Nat) (key value : String)
    (home : Nat) (t : ProbeTable) (i fuel : Nat) (e : HashErr)
    (h : (probeInsertGo delta key value home t i fuel).2 = .exn e) :
    (probeInsertGo delta key value home t i fuel).1.slots = t.slots := by
  induction fuel generalizing t i with
  | zero => rfl
  | succ fuel ih =>
    rw [probeInsertGo] at h ⊢
    rcases hk : (t.slots.getD ((home + delta i) % t.size) emptySlot).keyValue
      with _ | k
    · simp only [hk] at h
      exact OpResult.noConfusion h
    · simp only [hk] at h ⊢
      by_cases hkey : k = key
      · rw [if_pos hkey] at h
        simp at h
      · rw [if_neg hkey] at h ⊢
        exact ih _ _ h

theorem probeInsertGo_preserves_other (delta : Nat → Nat) (key value : String)
    (home : Nat) (t : ProbeTable) (i fuel j : Nat)
    (hj : isOccupiedByOther (t.slots.getD j emptySlot) key = true) :
    (probeInsertGo delta key value home t i fuel).1.slots.getD j emptySlot =
      t.slots.getD j emptySlot := by
  revert hj
  induction fuel generalizing t i with
  | zero => exact fun _ => rfl
  | succ fuel ih =>
    intro hj
    obtain ⟨k', hk', hne⟩ := (isOccupiedByOther_iff _ _).mp hj
    rw [probeInsertGo]
    rcases hk : (t.slots.getD ((home + delta i) % t.size) emptySlot).keyValue
      with _ | k
    · simp only [hk]
      have hij : ((home + delta i) % t.size) ≠ j := by
        intro hij
        rw [hij, hk'] at hk
        exact Option.noConfusion hk
      exact getD_set_of_ne _ hij
    · simp only [hk]
      by_cases hkey : k = key
      · rw [if_pos hkey]
        have hij : ((home + delta i) % t.size) ≠ j := by
          intro hij
          rw [hij, hk'] at hk
          exact hne (by injection hk with h; exact h.trans hkey)
        exact getD_set_of_ne _ hij
      · rw [if_neg hkey]
        exact ih _ _ hj

theorem probeInsertGo_search (delta : Nat → Nat) (key value : String)
    (home : Nat) (t t' : ProbeTable) (i fuel : Nat)
    (hw : t.slots.length = t.size) (hpos : 0 < t.size)
    (h : probeInsertGo delta key value home t i fuel = (t', .ok ())) :
    ∀ s : ProbeTable, s.slots = t'.slots → s.size = t'.size →
      (probeSearchGo delta key home s i fuel).2 = .ok (some value) := by
  revert hw hpos h
  induction fuel generalizing t i with
  | zero =>
    intro hw hpos h
    injection h with h1 h2
    exact OpResult.noConfusion h2
  | succ fuel ih =>
    intro hw hpos h s hs hssize
    rw [probeInsertGo] at h
    rcases hk : (t.slots.getD ((home + delta i) % t.size) emptySlot).keyValue
      with _ | k
    · simp only [hk] at h
      injection h with h1 h2
      have hidx : (home + delta i) % t.size < t.slots.length := by
        rw [hw]
        exact Nat.mod_lt _ hpos
      have hsize' : s.size = t.size := by rw [hssize, ← h1]
      have hslot : s.slots.getD ((home + delta i) % s.size) emptySlot =
          ⟨some key, some value⟩ := by
        rw [hsize', hs, ← h1]
        exact getD_set_self_of_lt _ hidx
      rw [probeSearchGo, hslot]
      simp
    · simp only [hk] at h
      by_cases hkey : k = key
      · rw [if_pos hkey] at h
        injection h with h1 h2
        have hidx : (home + delta i) % t.size < t.slots.length := by
          rw [hw]
          exact Nat.mod_lt _ hpos
        have hsize' : s.size = t.size := by rw [hssize, ← h1]
        have hslot : s.slots.getD ((home + delta i) % s.size) emptySlot =
            ⟨some k, some value⟩ := by
          rw [hsize', hs, ← h1]
          exact getD_set_self_of_lt _ hidx
        rw [probeSearchGo, hslot]
        simp [hkey]
      · rw [if_neg hkey] at h
        have h1 : (probeInsertGo delta key value home
            { t with collisionsCount := t.collisionsCount + 1,
                     probesCount := t.probesCount + 1 } (i + 1) fuel).1 = t' :=
          congrArg Prod.fst h
        have hsize' : s.size = t.size := by
          rw [hssize, ← h1, probeInsertGo_size]
        have hslot : s.slots.getD ((home + delta i) % s.size) emptySlot =
            t.slots.getD ((home + delta i) % t.size) emptySlot := by
          rw [hsize', hs, ← h1]
          exact probeInsertGo_preserves_other _ _ _ _ _ _ _ _
            ((isOccupiedByOther_iff _ _).mpr ⟨k, hk, hkey⟩)
        rw [probeSearchGo, hslot]
        simp only [hk]
        rw [if_neg hkey]
        exact ih { t with collisionsCount := t.collisionsCount + 1,
                          probesCount := t.probesCount + 1 } (i + 1)
          hw hpos h { s with probesCount := s.probesCount + 1 } hs hssize

theorem probeInsertGo_tableFull_iff (delta : Nat → Nat) (key value : String)
    (home : Nat) (t : ProbeTable) (i fuel : Nat) :
    (probeInsertGo delta key value home t i fuel).2 = .exn .tableFull ↔
      ∀ j, j < fuel →
        isOccupiedByOther
          (t.slots.getD ((home + delta (i + j)) % t.size) emptySlot) key = true := by
  induction fuel generalizing t i with
  | zero => simp [probeInsertGo]
  | succ fuel ih =>
    rw [probeInsertGo]
    rcases hk : (t.slots.getD ((home + delta i) % t.size) emptySlot).keyValue
      with _ | k
    · simp only [hk]
      constructor
      · intro h
        exact absurd h (by simp)
      · intro h
        have h0 := h 0 (Nat.succ_pos _)
        rw [Nat.add_zero] at h0
        obtain ⟨k', hk', _⟩ := (isOccupiedByOther_iff _ _).mp h0
        rw [hk] at hk'
        exact Option.noConfusion hk'
    · simp only [hk]
      by_cases hkey : k = key
      · rw [if_pos hkey]
        constructor
        · intro h
          exact absurd h (by simp)
        · intro h
          have h0 := h 0 (Nat.succ_pos _)
          rw [Nat.add_zero] at h0
          obtain ⟨k', hk', hne⟩ := (isOccupiedByOther_iff _ _).mp h0
          rw [hk] at hk'
          injection hk' with hkk
          exact (hne (hkk ▸ hkey)).elim
      · rw [if_neg hkey]
        constructor
        · intro h j hj
          cases j with
          | zero =>
            simpa using (isOccupiedByOther_iff _ _).mpr ⟨k, hk, hkey⟩
          | succ j =>
            have hj' : j < fuel := Nat.lt_of_succ_lt_succ hj
            have := (ih _ (i + 1)).mp h j hj'
            have harith : i + 1 + j = i + (j + 1) := by omega
            simpa [harith] using this
        · intro h
          refine (ih _ (i + 1)).mpr ?_
          intro j hj
          have := h (j + 1) (Nat.succ_lt_succ hj)
          have harith : i + 1 + j = i + (j + 1) := by omega
          simpa [harith] using this

theorem probeInsertGo_update (delta : Nat → Nat) (key value : String)
    (home : Nat) (t : ProbeTable) (i fuel j : Nat)
    (hj : j < fuel)
    (hkey : (t.slots.getD ((home + delta (i + j)) % t.size) emptySlot).keyValue
      = some key)
    (hprev : ∀ j', j' < j →
      isOccupiedByOther
        (t.slots.getD ((home + delta (i + j')) % t.size) emptySlot) key = true) :
    (probeInsertGo delta key value home t i fuel).1.slots =
        t.slots.set ((home + delta (i + j)) % t.size) ⟨some key, some value⟩ ∧
      (probeInsertGo delta key value home t i fuel).2 = .ok () := by
  revert hj hkey hprev
  induction fuel generalizing t i j with
  | zero =>
    intro hj _ _
    exact absurd hj (Nat.not_lt_zero _)
  | succ fuel ih =>
    intro hj hkey hprev
    rw [probeInsertGo]
    cases j with
    | zero =>
      rw [Nat.add_zero] at hkey
      simp only [hkey, if_true]
      refine ⟨?_, trivial⟩
      rw [Nat.add_zero]
    | succ j =>
      have h0 := hprev 0 (Nat.succ_pos _)
      rw [Nat.add_zero] at h0
      obtain ⟨k', hk', hne⟩ := (isOccupiedByOther_iff _ _).mp h0
      simp only [hk']
      rw [if_neg (fun hkk => hne hkk)]
      have harith : ∀ m : Nat, i + 1 + m = i + (m + 1) := by omega
      have hres := ih { t with collisionsCount := t.collisionsCount + 1,
                               probesCount := t.probesCount + 1 } (i + 1) j
        (Nat.lt_of_succ_lt_succ hj)
        (by simpa [harith j] using hkey)
        (by
          intro j' hj'
          simpa [harith j'] using hprev (j' + 1) (Nat.succ_lt_succ hj'))
      exact ⟨by rw [hres.1]; simp [harith j], hres.2⟩

theorem countP_set_same (p : Slot → Bool) (l : List Slot) (n : Nat) (a : Slot)
    (hn : n < l.length) (hp : p a = p (l.getD n emptySlot)) :
    (l.set n a).countP p = l.countP p := by
  induction l generalizing n with
  | nil => exact absurd hn (Nat.not_lt_zero _)
  | cons x xs ih =>
    cases n with
    | zero =>
      simp only [List.getD_cons_zero] at hp
      simp [List.countP_cons, hp]
    | succ n =>
      simp only [List.getD_cons_succ] at hp
      simp only [List.length_cons, Nat.succ_lt_succ_iff] at hn
      simp [List.countP_cons, ih n hn hp]

theorem updateChain_none_not_mem (key value : String)
    (c : List (String × String)) (h : updateChain key value c = none) :
    ∀ e ∈ c, e.1 ≠ key := by
  induction c with
  | nil => simp
  | cons x rest ih =>
    obtain ⟨k, w⟩ := x
    rw [updateChain] at h
    by_cases hk : k = key
    · rw [if_pos hk] at h
      exact Option.noConfusion h
    · rw [if_neg hk] at h
      intro e he
      rcases List.mem_cons.mp he with he | he
      · rw [he]
        exact hk
      · cases hrest : updateChain key value rest with
        | none => exact ih hrest e he
        | some r =>
          rw [hrest] at h
          exact Option.noConfusion h

theorem chainSearchGo_update (key value : String)
    (c c' : List (String × String)) (h : updateChain key value c = some c') :
    ∀ t : ChainTable, (chainSearchGo key t c').2 = .ok (some value) := by
  induction c generalizing c' with
  | nil => exact Option.noConfusion h
  | cons x rest ih =>
    obtain ⟨k, w⟩ := x
    rw [updateChain] at h
    by_cases hk : k = key
    · rw [if_pos hk] at h
      injection h with h
      intro t
      rw [← h, chainSearchGo]
      simp [hk]
    · rw [if_neg hk] at h
      cases hrest : updateChain key value rest with
      | none =>
        rw [hrest] at h
        exact Option.noConfusion h
      | some r =>
        rw [hrest] at h
        have h' : (k, w) :: r = c' := by simpa using h
        intro t
        rw [← h', chainSearchGo]
        rw [if_neg hk]
        exact ih r hrest _

theorem chainSearchGo_append (key value : String)
    (c : List (String × String)) (h : ∀ e ∈ c, e.1 ≠ key) :
    ∀ t : ChainTable,
      (chainSearchGo key t (c ++ [(key, value)])).2 = .ok (some value) := by
  induction c with
  | nil =>
    intro t
    rw [List.nil_append, chainSearchGo]
    simp
  | cons x rest ih =>
    obtain ⟨k, w⟩ := x
    intro t
    rw [List.cons_append, chainSearchGo]
    rw [if_neg (h (k, w) (List.mem_cons_self _ _))]
    exact ih (fun e he => h e (List.mem_cons_of_mem _ he)) _

theorem probe_go_roundtrip (delta : Nat → Nat) (key value : String)
    (home size : Nat) (slots : List Slot) (t' : ProbeTable)
    (hw : slots.length = size) (hpos : 0 < size)
    (h : probeInsertGo delta key value home ⟨size, slots, 0, 1⟩ 0 size =
      (t', .ok ())) :
    (probeSearchGo delta key home ⟨size, t'.slots, 0, 1⟩ 0 size).2 =
      .ok (some value) := by
  refine probeInsertGo_search delta key value home ⟨size, slots, 0, 1⟩ t' 0 size
    hw hpos h ⟨size, t'.slots, 0, 1⟩ rfl ?_
  have h1 : _ = t' := congrArg Prod.fst h
  rw [← h1, probeInsertGo_size]

/-! Claim theorems. -/

/-- C1: for every strategy (chaining, linear probing, quadratic probing,
double hashing), for every key k and value v, if insert(T, k, v) succeeds
(does not fail with TableFull), then an immediately following search(T, k)
on the resulting table returns v. -/
theorem claim1_insert_then_search_returns_value :
    (∀ (hash : String → Int) (t t' : ProbeTable) (k v : String),
      t.WF → linearInsert hash t k v = (t', .ok ()) →
        (linearSearch hash t' k).2 = .ok (some v)) ∧
    (∀ (hash : String → Int) (t t' : ProbeTable) (k v : String),
      t.WF → quadraticInsert hash t k v = (t', .ok ()) →
        (quadraticSearch hash t' k).2 = .ok (some v)) ∧
    (∀ (hash : String → Int) (t t' : ProbeTable) (k v : String),
      t.WF → doubleInsert hash t k v = (t', .ok ()) →
        (doubleSearch hash t' k).2 = .ok (some v)) ∧
    (∀ (hash : String → Int) (t t' : ChainTable) (k v : String),
      t.WF → chainInsert hash t k v = (t', .ok ()) →
        (chainSearch hash t' k).2 = .ok (some v)) := by
  refine ⟨?_, ?_, ?_, ?_⟩
  · intro hash t t' k v hwf h
    simp only [linearInsert, ProbeTable.resetStats] at h
    simp only [linearSearch, ProbeTable.resetStats]
    cases hm : hashMod hash t.size k with
    | exn e =>
      simp only [hm] at h
      injection h with h1 h2
      exact OpResult.noConfusion h2
    | ok home =>
      simp only [hm] at h
      have hsize : t'.size = t.size := by
        have h1 : _ = t' := congrArg Prod.fst h
        rw [← h1, probeInsertGo_size]
      rw [hsize]
      simp only [hm]
      exact probe_go_roundtrip _ k v home t.size t.slots t' hwf
        (hashMod_ok_pos hm) h
  · intro hash t t' k v hwf h
    simp only [quadraticInsert, ProbeTable.resetStats] at h
    simp only [quadraticSearch, ProbeTable.resetStats]
    cases hm : hashMod hash t.size k with
    | exn e =>
      simp only [hm] at h
      injection h with h1 h2
      exact OpResult.noConfusion h2
    | ok home =>
      simp only [hm] at h
      have hsize : t'.size = t.size := by
        have h1 : _ = t' := congrArg Prod.fst h
        rw [← h1, probeInsertGo_size]
      rw [hsize]
      simp only [hm]
      exact probe_go_roundtrip _ k v home t.size t.slots t' hwf
        (hashMod_ok_pos hm) h
  · intro hash t t' k v hwf h
    simp only [doubleInsert, ProbeTable.resetStats] at h
    simp only [doubleSearch, ProbeTable.resetStats]
    cases hm : hashMod hash t.size k with
    | exn e =>
      simp only [hm] at h
      injection h with h1 h2
      exact OpResult.noConfusion h2
    | ok h1v =>
      simp only [hm] at h
      cases hm2 : hashMod2 hash t.size k with
      | exn e =>
        simp only [hm2] at h
        injection h with h1 h2
        exact OpResult.noConfusion h2
      | ok h2v =>
        simp only [hm2] at h
        have hsize : t'.size = t.size := by
          have h1 : _ = t' := congrArg Prod.fst h
          rw [← h1, probeInsertGo_size]
        rw [hsize]
        simp only [hm, hm2]
        exact probe_go_roundtrip _ k v h1v t.size t.slots t' hwf
          (hashMod_ok_pos hm) h
  · intro hash t t' k v hwf h
    simp only [chainInsert, ChainTable.resetStats] at h
    simp only [chainSearch, ChainTable.resetStats]
    cases hm : hashMod hash t.size k with
    | exn e =>
      simp only [hm] at h
      injection h with h1 h2
      exact OpResult.noConfusion h2
    | ok index =>
      simp only [hm] at h
      have hidx : index < t.chains.length := by
        rw [hwf]
        exact hashMod_ok_lt hm
      cases hup : updateChain k v (t.chains.getD index []) with
      | some newChain =>
        simp only [hup] at h
        injection h with h1 h2
        have hchains : t'.chains = t.chains.set index newChain := by
          rw [← h1]
          by_cases he : (t.chains.getD index []).isEmpty
          · rw [if_pos he]
          · rw [if_neg he]
        have hsize : t'.size = t.size := by
          rw [← h1]
          by_cases he : (t.chains.getD index []).isEmpty
          · rw [if_pos he]
          · rw [if_neg he]
        rw [hsize]
        simp only [hm]
        rw [hchains, getD_set_self_of_lt _ hidx]
        exact chainSearchGo_update k v _ newChain hup _
      | none =>
        simp only [hup] at h
        injection h with h1 h2
        have hchains : t'.chains =
            t.chains.set index (t.chains.getD index [] ++ [(k, v)]) := by
          rw [← h1]
          by_cases he : (t.chains.getD index []).isEmpty
          · rw [if_pos he]
          · rw [if_neg he]
        have hsize : t'.size = t.size := by
          rw [← h1]
          by_cases he : (t.chains.getD index []).isEmpty
          · rw [if_pos he]
          · rw [if_neg he]
        rw [hsize]
        simp only [hm]
        rw [hchains, getD_set_self_of_lt _ hidx]
        exact chainSearchGo_append k v _ (updateChain_none_not_mem k v _ hup) _

/-- Witness for C1: concrete insert-then-search runs for all four
strategies, with every hypothesis discharged at the concrete input. -/
theorem claim1_witness :
    (linearSearch (fun _ => 0) ⟨2, [⟨some "a", some "x"⟩, emptySlot], 0, 1⟩
      "a").2 = .ok (some "x") ∧
    (quadraticSearch (fun _ => 0) ⟨2, [⟨some "b", some "y"⟩, emptySlot], 0, 1⟩
      "b").2 = .ok (some "y") ∧
    (doubleSearch (fun _ => 0) ⟨2, [⟨some "c", some "z"⟩, emptySlot], 0, 1⟩
      "c").2 = .ok (some "z") ∧
    (chainSearch (fun _ => 0) ⟨2, [[("d", "w")], []], 0, 1⟩ "d").2 =
      .ok (some "w") :=
  ⟨claim1_insert_then_search_returns_value.1 (fun _ => 0)
      ⟨2, [emptySlot, emptySlot], 3, 4⟩ _ "a" "x" rfl (by decide),
    claim1_insert_then_search_returns_value.2.1 (fun _ => 0)
      ⟨2, [emptySlot, emptySlot], 0, 0⟩ _ "b" "y" rfl (by decide),
    claim1_insert_then_search_returns_value.2.2.1 (fun _ => 0)
      ⟨2, [emptySlot, emptySlot], 0, 0⟩ _ "c" "z" rfl (by decide),
    claim1_insert_then_search_returns_value.2.2.2 (fun _ => 0)
      ⟨2, [[], []], 9, 9⟩ _ "d" "w" rfl (by decide)⟩

/-- C2 counterexample: with `hash ≡ 0` and a size-2 linear table whose home
slot 0 is occupied by a different key, inserting "b" ends with
`collisions_count = 1` and `probes_count = 2`. The only iteration that met
an occupied slot with a different key was i = 0 (iteration i = 1 found slot
1 empty and placed there, which never increments the counter), so the i = 0
iteration did increment `collisions_count`, contradicting the claim that it
never does. The same `else` branch is shared verbatim by the quadratic and
double-hashing inserts. -/
theorem claim2_counterexample :
    linearInsert (fun _ => 0) ⟨2, [⟨some "a", some "x"⟩, emptySlot], 0, 0⟩
      "b" "y" =
    (⟨2, [⟨some "a", some "x"⟩, ⟨some "b", some "y"⟩], 1, 2⟩, .ok ()) := by
  decide

theorem probeInsertGo_home_collision (delta : Nat → Nat) (key value : String)
    (home : Nat) (t : ProbeTable) (fuel : Nat) (k' : String)
    (hd : delta 0 = 0) (hfuel : 0 < fuel) (hhome : home < t.size)
    (hk : (t.slots.getD home emptySlot).keyValue = some k') (hne : k' ≠ key) :
    t.collisionsCount + 1 ≤
      (probeInsertGo delta key value home t 0 fuel).1.collisionsCount := by
  obtain ⟨f, rfl⟩ : ∃ f, fuel = f + 1 := ⟨fuel - 1, by omega⟩
  rw [probeInsertGo]
  have hidx : (home + delta 0) % t.size = home := by
    rw [hd, Nat.add_zero, Nat.mod_eq_of_lt hhome]
  rw [hidx]
  simp only [hk]
  rw [if_neg (fun h => hne h)]
  exact probeInsertGo_collisions_le delta key value home
    { t with collisionsCount := t.collisionsCount + 1,
             probesCount := t.probesCount + 1 } (0 + 1) f

/-- C2 amended: for every open-addressing strategy, when the home slot is
occupied by a different key, the very first iteration i = 0 does increment
`collisions_count` — the final collision count of the call is at least 1
(the code counts a collision at every probed slot occupied by a different
key, i = 0 included). -/
theorem claim2_amended_home_collision_is_counted :
    (∀ (hash : String → Int) (t : ProbeTable) (k v k' : String) (home : Nat),
      hashMod hash t.size k = .ok home →
      (t.slots.getD home emptySlot).keyValue = some k' → k' ≠ k →
      1 ≤ (linearInsert hash t k v).1.collisionsCount) ∧
    (∀ (hash : String → Int) (t : ProbeTable) (k v k' : String) (home : Nat),
      hashMod hash t.size k = .ok home →
      (t.slots.getD home emptySlot).keyValue = some k' → k' ≠ k →
      1 ≤ (quadraticInsert hash t k v).1.collisionsCount) ∧
    (∀ (hash : String → Int) (t : ProbeTable) (k v k' : String)
        (home h2 : Nat),
      hashMod hash t.size k = .ok home →
      hashMod2 hash t.size k = .ok h2 →
      (t.slots.getD home emptySlot).keyValue = some k' → k' ≠ k →
      1 ≤ (doubleInsert hash t k v).1.collisionsCount) := by
  refine ⟨?_, ?_, ?_⟩
  · intro hash t k v k' home hm hk hne
    simp only [linearInsert, ProbeTable.resetStats, hm]
    exact probeInsertGo_home_collision _ k v home ⟨t.size, t.slots, 0, 0 + 1⟩
      t.size k' rfl (hashMod_ok_pos hm) (hashMod_ok_lt hm) hk hne
  · intro hash t k v k' home hm hk hne
    simp only [quadraticInsert, ProbeTable.resetStats, hm]
    exact probeInsertGo_home_collision _ k v home ⟨t.size, t.slots, 0, 0 + 1⟩
      t.size k' (by simp) (hashMod_ok_pos hm) (hashMod_ok_lt hm) hk hne
  · intro hash t k v k' home h2 hm hm2 hk hne
    simp only [doubleInsert, ProbeTable.resetStats, hm, hm2]
    exact probeInsertGo_home_collision _ k v home ⟨t.size, t.slots, 0, 0 + 1⟩
      t.size k' (by simp) (hashMod_ok_pos hm) (hashMod_ok_lt hm) hk hne

/-- Witness for the amended C2, at the counterexample's input for all three
open-addressing strategies. -/
theorem claim2_witness :
    1 ≤ (linearInsert (fun _ => 0)
      ⟨2, [⟨some "a", some "x"⟩, emptySlot], 0, 0⟩ "b" "y").1.collisionsCount ∧
    1 ≤ (quadraticInsert (fun _ => 0)
      ⟨2, [⟨some "a", some "x"⟩, emptySlot], 0, 0⟩ "b" "y").1.collisionsCount ∧
    1 ≤ (doubleInsert (fun _ => 0)
      ⟨2, [⟨some "a", some "x"⟩, emptySlot], 0, 0⟩ "b" "y").1.collisionsCount :=
  ⟨claim2_amended_home_collision_is_counted.1 (fun _ => 0)
      ⟨2, [⟨some "a", some "x"⟩, emptySlot], 0, 0⟩ "b" "y" "a" 0
      (by decide) (by decide) (by decide),
    claim2_amended_home_collision_is_counted.2.1 (fun _ => 0)
      ⟨2, [⟨some "a", some "x"⟩, emptySlot], 0, 0⟩ "b" "y" "a" 0
      (by decide) (by decide) (by decide),
    claim2_amended_home_collision_is_counted.2.2 (fun _ => 0)
      ⟨2, [⟨some "a", some "x"⟩, emptySlot], 0, 0⟩ "b" "y" "a" 0 1
      (by decide) (by decide) (by decide) (by decide)⟩

theorem hashMod2_exn_eq {hash : String → Int} {size : Nat} {key : String}
    {e : HashErr} (h : hashMod2 hash size key = .exn e) : e = .zeroDivision := by
  by_cases hs : (size : Int) - 1 = 0
  · rw [hashMod2, if_pos hs] at h
    injection h with h
    exact h.symm
  · rw [hashMod2, if_neg hs] at h
    exact OpResult.noConfusion h

/-- C3: for every open-addressing strategy, insert fails with the TableFull
error exactly when all `size` candidate indices of the probe sequence are
exhausted without finding an empty slot or a slot holding the same key;
chaining insert never fails with TableFull for any key and value. -/
theorem claim3_tableFull_exactly_when_probes_exhausted :
    (∀ (hash : String → Int) (t : ProbeTable) (k v : String),
      (linearInsert hash t k v).2 = .exn .tableFull ↔
        ∃ home, hashMod hash t.size k = .ok home ∧
          ∀ j, j < t.size →
            isOccupiedByOther (t.slots.getD ((home + j) % t.size) emptySlot) k
              = true) ∧
    (∀ (hash : String → Int) (t : ProbeTable) (k v : String),
      (quadraticInsert hash t k v).2 = .exn .tableFull ↔
        ∃ home, hashMod hash t.size k = .ok home ∧
          ∀ j, j < t.size →
            isOccupiedByOther
              (t.slots.getD ((home + j * j) % t.size) emptySlot) k = true) ∧
    (∀ (hash : String → Int) (t : ProbeTable) (k v : String),
      (doubleInsert hash t k v).2 = .exn .tableFull ↔
        ∃ home h2, hashMod hash t.size k = .ok home ∧
          hashMod2 hash t.size k = .ok h2 ∧
          ∀ j, j < t.size →
            isOccupiedByOther
              (t.slots.getD ((home + j * h2) % t.size) emptySlot) k = true) ∧
    (∀ (hash : String → Int) (t : ChainTable) (k v : String),
      (chainInsert hash t k v).2 ≠ .exn .tableFull) := by
  refine ⟨?_, ?_, ?_, ?_⟩
  · intro hash t k v
    simp only [linearInsert, ProbeTable.resetStats]
    cases hm : hashMod hash t.size k with
    | exn e =>
      simp only [hm]
      have he := hashMod_exn_eq hm
      subst he
      constructor
      · intro h
        exact absurd h (by simp)
      · rintro ⟨home, hok, -⟩
        exact OpResult.noConfusion hok
    | ok home =>
      simp only [hm]
      constructor
      · intro h
        refine ⟨home, rfl, ?_⟩
        intro j hj
        have := (probeInsertGo_tableFull_iff (fun i => i) k v home
          ⟨t.size, t.slots, 0, 0 + 1⟩ 0 t.size).mp h j hj
        simpa using this
      · rintro ⟨home', hok, hall⟩
        injection hok with he
        subst he
        refine (probeInsertGo_tableFull_iff (fun i => i) k v home
          ⟨t.size, t.slots, 0, 0 + 1⟩ 0 t.size).mpr ?_
        intro j hj
        simpa using hall j hj
  · intro hash t k v
    simp only [quadraticInsert, ProbeTable.resetStats]
    cases hm : hashMod hash t.size k with
    | exn e =>
      simp only [hm]
      have he := hashMod_exn_eq hm
      subst he
      constructor
      · intro h
        exact absurd h (by simp)
      · rintro ⟨home, hok, -⟩
        exact OpResult.noConfusion hok
    | ok home =>
      simp only [hm]
      constructor
      · intro h
        refine ⟨home, rfl, ?_⟩
        intro j hj
        have := (probeInsertGo_tableFull_iff (fun i => i * i) k v home
          ⟨t.size, t.slots, 0, 0 + 1⟩ 0 t.size).mp h j hj
        simpa using this
      · rintro ⟨home', hok, hall⟩
        injection hok with he
        subst he
        refine (probeInsertGo_tableFull_iff (fun i => i * i) k v home
          ⟨t.size, t.slots, 0, 0 + 1⟩ 0 t.size).mpr ?_
        intro j hj
        simpa using hall j hj
  · intro hash t k v
    simp only [doubleInsert, ProbeTable.resetStats]
    cases hm : hashMod hash t.size k with
    | exn e =>
      simp only [hm]
      have he := hashMod_exn_eq hm
      subst he
      constructor
      · intro h
        exact absurd h (by simp)
      · rintro ⟨home, h2, hok, -, -⟩
        exact OpResult.noConfusion hok
    | ok home =>
      simp only [hm]
      cases hm2 : hashMod2 hash t.size k with
      | exn e2 =>
        simp only [hm2]
        have he := hashMod2_exn_eq hm2
        subst he
        constructor
        · intro h
          exact absurd h (by simp)
        · rintro ⟨home', h2, -, hok2, -⟩
          exact OpResult.noConfusion hok2
      | ok h2v =>
        simp only [hm2]
        constructor
        · intro h
          refine ⟨home, h2v, rfl, rfl, ?_⟩
          intro j hj
          have := (probeInsertGo_tableFull_iff (fun i => i * h2v) k v home
            ⟨t.size, t.slots, 0, 0 + 1⟩ 0 t.size).mp h j hj
          simpa using this
        · rintro ⟨home', h2', hok, hok2, hall⟩
          injection hok with he
          subst he
          injection hok2 with he2
          subst he2
          refine (probeInsertGo_tableFull_iff (fun i => i * h2v) k v home
            ⟨t.size, t.slots, 0, 0 + 1⟩ 0 t.size).mpr ?_
          intro j hj
          simpa using hall j hj
  · intro hash t k v
    simp only [chainInsert, ChainTable.resetStats]
    cases hm : hashMod hash t.size k with
    | exn e =>
      simp only [hm]
      have he := hashMod_exn_eq hm
      subst he
      simp
    | ok index =>
      simp only [hm]
      cases hup : updateChain k v (t.chains.getD index []) with
      | some c' =>
        simp only [hup]
        simp
      | none =>
        simp only [hup]
        simp

/-- Witness for C3: a full size-2 table rejects a fresh key with TableFull
under each open-addressing strategy, while a chaining insert into an
occupied bucket does not. -/
theorem claim3_witness :
    (linearInsert (fun _ => 0)
      ⟨2, [⟨some "a", some "x"⟩, ⟨some "c", some "z"⟩], 0, 0⟩ "b" "y").2 =
        .exn .tableFull ∧
    (quadraticInsert (fun _ => 0)
      ⟨2, [⟨some "a", some "x"⟩, ⟨some "c", some "z"⟩], 0, 0⟩ "b" "y").2 =
        .exn .tableFull ∧
    (doubleInsert (fun _ => 0)
      ⟨2, [⟨some "a", some "x"⟩, ⟨some "c", some "z"⟩], 0, 0⟩ "b" "y").2 =
        .exn .tableFull ∧
    (chainInsert (fun _ => 0) ⟨1, [[("a", "x")]], 0, 0⟩ "b" "y").2 ≠
      .exn .tableFull :=
  ⟨(claim3_tableFull_exactly_when_probes_exhausted.1 (fun _ => 0)
      ⟨2, [⟨some "a", some "x"⟩, ⟨some "c", some "z"⟩], 0, 0⟩ "b" "y").mpr
      ⟨0, by decide, by decide⟩,
    (claim3_tableFull_exactly_when_probes_exhausted.2.1 (fun _ => 0)
      ⟨2, [⟨some "a", some "x"⟩, ⟨some "c", some "z"⟩], 0, 0⟩ "b" "y").mpr
      ⟨0, by decide, by decide⟩,
    (claim3_tableFull_exactly_when_probes_exhausted.2.2.1 (fun _ => 0)
      ⟨2, [⟨some "a", some "x"⟩, ⟨some "c", some "z"⟩], 0, 0⟩ "b" "y").mpr
      ⟨0, 1, by decide, by decide, by decide⟩,
    claim3_tableFull_exactly_when_probes_exhausted.2.2.2 (fun _ => 0)
      ⟨1, [[("a", "x")]], 0, 0⟩ "b" "y"⟩

/-- C4 counterexample: the constructor `HashTable.__init__` contains no size
validation and no InvalidSize error exists anywhere in the code. Where the
claim says construction with size ≤ 0 fails, the constructor returns a
perfectly ordinary table whose `range(size)` slot-creation loop simply ran
zero times. -/
theorem claim4_counterexample :
    mkProbeTable 0 = ⟨0, [], 0, 0⟩ ∧
    mkProbeTable (-1) = ⟨0, [], 0, 0⟩ ∧
    mkChainTable 0 = ⟨0, [], 0, 0⟩ := by
  decide

/-- C4 amended: construction never fails for any size (there is no
InvalidSize error in the code); for positive size it constructs a table
with exactly size empty slots, and for size ≤ 0 it silently constructs a
table with zero slots. -/
theorem claim4_amended_no_size_validation :
    (∀ size : Int, 0 < size →
      ((mkProbeTable size).slots.length : Int) = size ∧
      ∀ s ∈ (mkProbeTable size).slots, s = emptySlot) ∧
    (∀ size : Int, size ≤ 0 → (mkProbeTable size).slots = []) ∧
    (∀ size : Int, 0 < size →
      ((mkChainTable size).chains.length : Int) = size ∧
      ∀ c ∈ (mkChainTable size).chains, c = []) ∧
    (∀ size : Int, size ≤ 0 → (mkChainTable size).chains = []) := by
  refine ⟨?_, ?_, ?_, ?_⟩
  · intro size hpos
    constructor
    · simp only [mkProbeTable, initSlots, List.length_replicate]
      omega
    · intro s hs
      exact List.eq_of_mem_replicate hs
  · intro size hneg
    simp [mkProbeTable, initSlots, Int.toNat_of_nonpos hneg]
  · intro size hpos
    constructor
    · simp only [mkChainTable, List.length_replicate]
      omega
    · intro c hc
      exact List.eq_of_mem_replicate hc
  · intro size hneg
    simp [mkChainTable, Int.toNat_of_nonpos hneg]

/-- Witness for the amended C4 at sizes 3 and -2. -/
theorem claim4_witness :
    (((mkProbeTable 3).slots.length : Int) = 3 ∧
      ∀ s ∈ (mkProbeTable 3).slots, s = emptySlot) ∧
    (mkProbeTable (-2)).slots = [] ∧
    (((mkChainTable 3).chains.length : Int) = 3 ∧
      ∀ c ∈ (mkChainTable 3).chains, c = []) ∧
    (mkChainTable (-2)).chains = [] :=
  ⟨claim4_amended_no_size_validation.1 3 (by decide),
    claim4_amended_no_size_validation.2.1 (-2) (by decide),
    claim4_amended_no_size_validation.2.2.1 3 (by decide),
    claim4_amended_no_size_validation.2.2.2 (-2) (by decide)⟩

theorem probe_go_update_pack (delta : Nat → Nat) (k v : String) (home : Nat)
    (t : ProbeTable) (j : Nat)
    (hwf : t.slots.length = t.size) (hpos : 0 < t.size) (hj : j < t.size)
    (hkey : (t.slots.getD ((home + delta j) % t.size) emptySlot).keyValue
      = some k)
    (hprev : ∀ j', j' < j →
      isOccupiedByOther
        (t.slots.getD ((home + delta j') % t.size) emptySlot) k = true) :
    (probeInsertGo delta k v home ⟨t.size, t.slots, 0, 1⟩ 0 t.size).2 =
        .ok () ∧
      (probeInsertGo delta k v home ⟨t.size, t.slots, 0, 1⟩ 0 t.size).1.slots =
        t.slots.set ((home + delta j) % t.size) ⟨some k, some v⟩ ∧
      occupiedCount
          (probeInsertGo delta k v home ⟨t.size, t.slots, 0, 1⟩ 0 t.size).1 =
        occupiedCount t := by
  have hres := probeInsertGo_update delta k v home ⟨t.size, t.slots, 0, 1⟩
    0 t.size j hj (by simpa using hkey)
    (by
      intro j' hj'
      simpa using hprev j' hj')
  have hslots : (probeInsertGo delta k v home ⟨t.size, t.slots, 0, 1⟩
      0 t.size).1.slots =
      t.slots.set ((home + delta j) % t.size) ⟨some k, some v⟩ := by
    simpa using hres.1
  refine ⟨hres.2, hslots, ?_⟩
  show (probeInsertGo delta k v home ⟨t.size, t.slots, 0, 1⟩
    0 t.size).1.slots.countP _ = t.slots.countP _
  rw [hslots]
  refine countP_set_same _ _ _ _ ?_ ?_
  · rw [hwf]
    exact Nat.mod_lt _ hpos
  · show (⟨some k, some v⟩ : Slot).keyValue.isSome = _
    rw [hkey]

/-- C5: for every probing strategy and every key k already present in the
table (reachable along the probe sequence through slots occupied by other
keys), insert(T, k, v2) overwrites the value stored for k in its existing
slot, leaves the number of occupied slots unchanged, and does not fail with
TableFull. -/
theorem claim5_reinsert_updates_value_in_place :
    (∀ (hash : String → Int) (t : ProbeTable) (k v : String) (home j : Nat),
      t.WF → hashMod hash t.size k = .ok home → j < t.size →
      (t.slots.getD ((home + j) % t.size) emptySlot).keyValue = some k →
      (∀ j', j' < j →
        isOccupiedByOther
          (t.slots.getD ((home + j') % t.size) emptySlot) k = true) →
      (linearInsert hash t k v).2 = .ok () ∧
      (linearInsert hash t k v).1.slots =
        t.slots.set ((home + j) % t.size) ⟨some k, some v⟩ ∧
      occupiedCount (linearInsert hash t k v).1 = occupiedCount t) ∧
    (∀ (hash : String → Int) (t : ProbeTable) (k v : String) (home j : Nat),
      t.WF → hashMod hash t.size k = .ok home → j < t.size →
      (t.slots.getD ((home + j * j) % t.size) emptySlot).keyValue = some k →
      (∀ j', j' < j →
        isOccupiedByOther
          (t.slots.getD ((home + j' * j') % t.size) emptySlot) k = true) →
      (quadraticInsert hash t k v).2 = .ok () ∧
      (quadraticInsert hash t k v).1.slots =
        t.slots.set ((home + j * j) % t.size) ⟨some k, some v⟩ ∧
      occupiedCount (quadraticInsert hash t k v).1 = occupiedCount t) ∧
    (∀ (hash : String → Int) (t : ProbeTable) (k v : String)
        (home h2 j : Nat),
      t.WF → hashMod hash t.size k = .ok home →
      hashMod2 hash t.size k = .ok h2 → j < t.size →
      (t.slots.getD ((home + j * h2) % t.size) emptySlot).keyValue = some k →
      (∀ j', j' < j →
        isOccupiedByOther
          (t.slots.getD ((home + j' * h2) % t.size) emptySlot) k = true) →
      (doubleInsert hash t k v).2 = .ok () ∧
      (doubleInsert hash t k v).1.slots =
        t.slots.set ((home + j * h2) % t.size) ⟨some k, some v⟩ ∧
      occupiedCount (doubleInsert hash t k v).1 = occupiedCount t) := by
  refine ⟨?_, ?_, ?_⟩
  · intro hash t k v home j hwf hm hj hkey hprev
    simp only [linearInsert, ProbeTable.resetStats, hm]
    exact probe_go_update_pack (fun i => i) k v home t j hwf
      (hashMod_ok_pos hm) hj hkey hprev
  · intro hash t k v home j hwf hm hj hkey hprev
    simp only [quadraticInsert, ProbeTable.resetStats, hm]
    exact probe_go_update_pack (fun i => i * i) k v home t j hwf
      (hashMod_ok_pos hm) hj hkey hprev
  · intro hash t k v home h2 j hwf hm hm2 hj hkey hprev
    simp only [doubleInsert, ProbeTable.resetStats, hm, hm2]
    exact probe_go_update_pack (fun i => i * h2) k v home t j hwf
      (hashMod_ok_pos hm) hj hkey hprev

/-- Witness for C5: re-inserting key "a" (present in its home slot) with a
new value succeeds, rewrites that one slot, and keeps the occupied count,
for all three probing strategies. -/
theorem claim5_witness :
    ((linearInsert (fun _ => 0)
        ⟨2, [⟨some "a", some "x"⟩, emptySlot], 0, 0⟩ "a" "z").2 = .ok () ∧
      (linearInsert (fun _ => 0)
        ⟨2, [⟨some "a", some "x"⟩, emptySlot], 0, 0⟩ "a" "z").1.slots =
        [⟨some "a", some "x"⟩, emptySlot].set ((0 + 0) % 2)
          ⟨some "a", some "z"⟩ ∧
      occupiedCount (linearInsert (fun _ => 0)
        ⟨2, [⟨some "a", some "x"⟩, emptySlot], 0, 0⟩ "a" "z").1 =
        occupiedCount ⟨2, [⟨some "a", some "x"⟩, emptySlot], 0, 0⟩) ∧
    ((quadraticInsert (fun _ => 0)
        ⟨2, [⟨some "a", some "x"⟩, emptySlot], 0, 0⟩ "a" "z").2 = .ok () ∧
      (quadraticInsert (fun _ => 0)
        ⟨2, [⟨some "a", some "x"⟩, emptySlot], 0, 0⟩ "a" "z").1.slots =
        [⟨some "a", some "x"⟩, emptySlot].set ((0 + 0 * 0) % 2)
          ⟨some "a", some "z"⟩ ∧
      occupiedCount (quadraticInsert (fun _ => 0)
        ⟨2, [⟨some "a", some "x"⟩, emptySlot], 0, 0⟩ "a" "z").1 =
        occupiedCount ⟨2, [⟨some "a", some "x"⟩, emptySlot], 0, 0⟩) ∧
    ((doubleInsert (fun _ => 0)
        ⟨2, [⟨some "a", some "x"⟩, emptySlot], 0, 0⟩ "a" "z").2 = .ok () ∧
      (doubleInsert (fun _ => 0)
        ⟨2, [⟨some "a", some "x"⟩, emptySlot], 0, 0⟩ "a" "z").1.slots =
        [⟨some "a", some "x"⟩, emptySlot].set ((0 + 0 * 1) % 2)
          ⟨some "a", some "z"⟩ ∧
      occupiedCount (doubleInsert (fun _ => 0)
        ⟨2, [⟨some "a", some "x"⟩, emptySlot], 0, 0⟩ "a" "z").1 =
        occupiedCount ⟨2, [⟨some "a", some "x"⟩, emptySlot], 0, 0⟩) :=
  ⟨claim5_reinsert_updates_value_in_place.1 (fun _ => 0)
      ⟨2, [⟨some "a", some "x"⟩, emptySlot], 0, 0⟩ "a" "z" 0 0 rfl
      (by decide) (by decide) (by decide) (by decide),
    claim5_reinsert_updates_value_in_place.2.1 (fun _ => 0)
      ⟨2, [⟨some "a", some "x"⟩, emptySlot], 0, 0⟩ "a" "z" 0 0 rfl
      (by decide) (by decide) (by decide) (by decide),
    claim5_reinsert_updates_value_in_place.2.2 (fun _ => 0)
      ⟨2, [⟨some "a", some "x"⟩, emptySlot], 0, 0⟩ "a" "z" 0 1 0 rfl
      (by decide) (by decide) (by decide) (by decide) (by decide)⟩

/-- C6: for every strategy, every insert and search call sets
collisions_count and probes_count to (0, 0) at its start, so the statistics
observed after any call depend only on that call's cost and are independent
of the counter values before the call. -/
theorem claim6_stats_reset_at_start_of_every_call :
    (∀ (hash : String → Int) (t : ProbeTable) (c p : Nat) (k v : String),
      linearInsert hash { t with collisionsCount := c, probesCount := p }
          k v = linearInsert hash t k v ∧
        linearSearch hash { t with collisionsCount := c, probesCount := p }
          k = linearSearch hash t k) ∧
    (∀ (hash : String → Int) (t : ProbeTable) (c p : Nat) (k v : String),
      quadraticInsert hash { t with collisionsCount := c, probesCount := p }
          k v = quadraticInsert hash t k v ∧
        quadraticSearch hash { t with collisionsCount := c, probesCount := p }
          k = quadraticSearch hash t k) ∧
    (∀ (hash : String → Int) (t : ProbeTable) (c p : Nat) (k v : String),
      doubleInsert hash { t with collisionsCount := c, probesCount := p }
          k v = doubleInsert hash t k v ∧
        doubleSearch hash { t with collisionsCount := c, probesCount := p }
          k = doubleSearch hash t k) ∧
    (∀ (hash : String → Int) (t : ChainTable) (c p : Nat) (k v : String),
      chainInsert hash { t with collisionsCount := c, probesCount := p }
          k v = chainInsert hash t k v ∧
        chainSearch hash { t with collisionsCount := c, probesCount := p }
          k = chainSearch hash t k) :=
  ⟨fun _ _ _ _ _ _ => ⟨rfl, rfl⟩, fun _ _ _ _ _ _ => ⟨rfl, rfl⟩,
    fun _ _ _ _ _ _ => ⟨rfl, rfl⟩, fun _ _ _ _ _ _ => ⟨rfl, rfl⟩⟩

/-- C7: for every double-hashing table and every key, the secondary hash
h2(key) = (hash(key) mod (size−1)) + 1 lies in the range [1, size−1] and is
never 0 (stated for the sizes on which the secondary hash is defined at
all, that is size ≥ 2; see C10 for size 1). -/
theorem claim7_secondary_hash_in_range :
    ∀ (hash : String → Int) (size : Nat) (key : String), 2 ≤ size →
      ∃ h2, hashMod2 hash size key = .ok h2 ∧
        1 ≤ h2 ∧ h2 ≤ size - 1 ∧ h2 ≠ 0 := by
  intro hash size key hs
  have hne : (size : Int) - 1 ≠ 0 := by omega
  rw [hashMod2, if_neg hne]
  refine ⟨(hash key % ((size : Int) - 1)).toNat + 1, rfl,
    Nat.le_add_left 1 _, ?_, Nat.succ_ne_zero _⟩
  have h0 := Int.emod_nonneg (hash key) hne
  have h1 := Int.emod_lt_of_pos (hash key)
    (by omega : (0 : Int) < (size : Int) - 1)
  omega

/-- Witness for C7 at size 5 with a hash returning -7:
(-7 mod 4) + 1 = 2. -/
theorem claim7_witness :
    2 ≤ 5 ∧ ∃ h2, hashMod2 (fun _ => -7) 5 "k" = .ok h2 ∧
      1 ≤ h2 ∧ h2 ≤ 5 - 1 ∧ h2 ≠ 0 :=
  ⟨by decide, claim7_secondary_hash_in_range (fun _ => -7) 5 "k" (by decide)⟩

/-- C8: for every open-addressing strategy, when insert fails (with any
exception, TableFull included), no slot's key or value is mutated: the
table's slot contents after the failed insert are identical to the contents
before the call. -/
theorem claim8_failed_insert_leaves_slots_unchanged :
    (∀ (hash : String → Int) (t : ProbeTable) (k v : String) (e : HashErr),
      (linearInsert hash t k v).2 = .exn e →
      (linearInsert hash t k v).1.slots = t.slots) ∧
    (∀ (hash : String → Int) (t : ProbeTable) (k v : String) (e : HashErr),
      (quadraticInsert hash t k v).2 = .exn e →
      (quadraticInsert hash t k v).1.slots = t.slots) ∧
    (∀ (hash : String → Int) (t : ProbeTable) (k v : String) (e : HashErr),
      (doubleInsert hash t k v).2 = .exn e →
      (doubleInsert hash t k v).1.slots = t.slots) := by
  refine ⟨?_, ?_, ?_⟩
  · intro hash t k v e h
    simp only [linearInsert, ProbeTable.resetStats] at h ⊢
    cases hm : hashMod hash t.size k with
    | exn e' => simp only [hm]
    | ok home =>
      simp only [hm] at h ⊢
      exact probeInsertGo_exn_slots _ k v home _ 0 t.size e h
  · intro hash t k v e h
    simp only [quadraticInsert, ProbeTable.resetStats] at h ⊢
    cases hm : hashMod hash t.size k with
    | exn e' => simp only [hm]
    | ok home =>
      simp only [hm] at h ⊢
      exact probeInsertGo_exn_slots _ k v home _ 0 t.size e h
  · intro hash t k v e h
    simp only [doubleInsert, ProbeTable.resetStats] at h ⊢
    cases hm : hashMod hash t.size k with
    | exn e' => simp only [hm]
    | ok h1v =>
      simp only [hm] at h ⊢
      cases hm2 : hashMod2 hash t.size k with
      | exn e2 => simp only [hm2]
      | ok h2v =>
        simp only [hm2] at h ⊢
        exact probeInsertGo_exn_slots _ k v h1v _ 0 t.size e h

/-- Witness for C8: the TableFull rejection of a full size-2 linear,
quadratic and double table leaves the slot rows untouched. -/
theorem claim8_witness :
    (linearInsert (fun _ => 0)
      ⟨2, [⟨some "e", some "x"⟩, ⟨some "f", some "z"⟩], 0, 0⟩ "g" "y").1.slots
      = [⟨some "e", some "x"⟩, ⟨some "f", some "z"⟩] ∧
    (quadraticInsert (fun _ => 0)
      ⟨2, [⟨some "e", some "x"⟩, ⟨some "f", some "z"⟩], 0, 0⟩ "g" "y").1.slots
      = [⟨some "e", some "x"⟩, ⟨some "f", some "z"⟩] ∧
    (doubleInsert (fun _ => 0)
      ⟨2, [⟨some "e", some "x"⟩, ⟨some "f", some "z"⟩], 0, 0⟩ "g" "y").1.slots
      = [⟨some "e", some "x"⟩, ⟨some "f", some "z"⟩] :=
  ⟨claim8_failed_insert_leaves_slots_unchanged.1 (fun _ => 0)
      ⟨2, [⟨some "e", some "x"⟩, ⟨some "f", some "z"⟩], 0, 0⟩ "g" "y"
      .tableFull (by decide),
    claim8_failed_insert_leaves_slots_unchanged.2.1 (fun _ => 0)
      ⟨2, [⟨some "e", some "x"⟩, ⟨some "f", some "z"⟩], 0, 0⟩ "g" "y"
      .tableFull (by decide),
    claim8_failed_insert_leaves_slots_unchanged.2.2 (fun _ => 0)
      ⟨2, [⟨some "e", some "x"⟩, ⟨some "f", some "z"⟩], 0, 0⟩ "g" "y"
      .tableFull (by decide)⟩

/-- C9: get_state reports a slot as empty (null) whenever the stored key is
falsy (Python `if slot.key_value`), so a slot whose key is the empty string
is reported as null in the snapshot even though insert treats that slot as
occupied (its occupancy test is `key is None`): probing past it without
touching it. -/
theorem claim9_falsy_key_reported_null_but_occupied :
    (∀ s : Slot, slotState s = none ↔
      s.keyValue = none ∨ s.keyValue = some "") ∧
    (∀ (t : ProbeTable) (alg : String) (i : Nat) (w : Option String),
      i < t.slots.length →
      t.slots.getD i emptySlot = ⟨some "", w⟩ →
      (t.getState alg).table.getD i none = none) ∧
    (∀ (hash : String → Int) (t : ProbeTable) (k v : String)
        (w : Option String) (home : Nat),
      hashMod hash t.size k = .ok home →
      t.slots.getD home emptySlot = ⟨some "", w⟩ →
      k ≠ "" →
      (linearInsert hash t k v).1.slots.getD home emptySlot =
        ⟨some "", w⟩) := by
  refine ⟨?_, ?_, ?_⟩
  · intro s
    unfold slotState
    cases hk : s.keyValue with
    | none => simp
    | some k =>
      by_cases hke : k = ""
      · simp [hke]
      · simp [hke]
  · intro t alg i w hi hslot
    simp only [ProbeTable.getState]
    have hel : t.slots[i] = (⟨some "", w⟩ : Slot) := by
      have h2 := hslot
      rw [List.getD_eq_getElem?_getD, List.getElem?_eq_getElem hi] at h2
      simpa using h2
    rw [List.getD_eq_getElem?_getD, List.getElem?_map,
      List.getElem?_eq_getElem hi, hel]
    simp [slotState]
  · intro hash t k v w home hm hslot hk
    simp only [linearInsert, ProbeTable.resetStats, hm]
    have hpres := probeInsertGo_preserves_other (fun i => i) k v home
      ⟨t.size, t.slots, 0, 1⟩ 0 t.size home
      ((isOccupiedByOther_iff _ _).mpr
        ⟨"", by rw [show (⟨t.size, t.slots, 0, 1⟩ : ProbeTable).slots = t.slots
                 from rfl, hslot], fun h => hk h.symm⟩)
    exact hpres.trans hslot

/-- Witness for C9: a slot holding the empty-string key is rendered null by
get_state, yet a linear insert of another key probes past it unchanged. -/
theorem claim9_witness :
    (slotState ⟨some "", some "v"⟩ = none ↔
      (⟨some "", some "v"⟩ : Slot).keyValue = none ∨
        (⟨some "", some "v"⟩ : Slot).keyValue = some "") ∧
    ((ProbeTable.getState ⟨2, [⟨some "", some "v"⟩, emptySlot], 0, 0⟩
      "linear_probing").table.getD 0 none = none) ∧
    ((linearInsert (fun _ => 0) ⟨2, [⟨some "", some "v"⟩, emptySlot], 0, 0⟩
      "b" "y").1.slots.getD 0 emptySlot = ⟨some "", some "v"⟩) :=
  ⟨claim9_falsy_key_reported_null_but_occupied.1 ⟨some "", some "v"⟩,
    claim9_falsy_key_reported_null_but_occupied.2.1
      ⟨2, [⟨some "", some "v"⟩, emptySlot], 0, 0⟩ "linear_probing" 0
      (some "v") (by decide) (by decide),
    claim9_falsy_key_reported_null_but_occupied.2.2 (fun _ => 0)
      ⟨2, [⟨some "", some "v"⟩, emptySlot], 0, 0⟩ "b" "y" (some "v") 0
      (by decide) (by decide) (by decide)⟩

/-- C10: for a double-hashing table constructed with size = 1, every insert
and every search call fails with a division-by-zero error for every key,
because the secondary hash computes hash(key) mod (size − 1); the failure
happens after reset_stats and before any probe, so the post-state is the
reset table. -/
theorem claim10_double_hashing_size_one_divides_by_zero :
    ∀ (hash : String → Int) (t : ProbeTable) (k v : String), t.size = 1 →
      doubleInsert hash t k v = (t.resetStats, .exn .zeroDivision) ∧
      doubleSearch hash t k = (t.resetStats, .exn .zeroDivision) := by
  intro hash t k v hs
  constructor
  · simp [doubleInsert, ProbeTable.resetStats, hs, hashMod, hashMod2]
  · simp [doubleSearch, ProbeTable.resetStats, hs, hashMod, hashMod2]

/-- Witness for C10 at a concrete size-1 table. -/
theorem claim10_witness :
    doubleInsert (fun _ => 0) ⟨1, [⟨some "a", some "x"⟩], 7, 8⟩ "b" "y" =
      ((⟨1, [⟨some "a", some "x"⟩], 7, 8⟩ : ProbeTable).resetStats,
        .exn .zeroDivision) ∧
    doubleSearch (fun _ => 0) ⟨1, [⟨some "a", some "x"⟩], 7, 8⟩ "b" =
      ((⟨1, [⟨some "a", some "x"⟩], 7, 8⟩ : ProbeTable).resetStats,
        .exn .zeroDivision) :=
  claim10_double_hashing_size_one_divides_by_zero (fun _ => 0)
    ⟨1, [⟨some "a", some "x"⟩], 7, 8⟩ "b" "y" rfl

end HashingApp
